import Mathlib

/-!
Shallow embedding of `rebin.py` (HiPCTProject/rebin): a pipeline that
down-samples a stack of 2D jp2 slices by an integer factor along all three
axes.  Pixel data is modelled with exact rationals; the jp2 codec is an
external collaborator, so a written file is modelled by the array handed to
the codec (after the `astype` cast), the dtype and the compression ratios.
-/

namespace Rebin

/-- A 2D image: a list of rows of exact pixel values (numpy float64 in the
code is modelled by `ℚ`). -/
abbrev Image := List (List ℚ)

/-- A 3D slab of shape (H, W, D): element `[i][j]` is the depth-list of pixel
values over the slab, matching the `(H, W, D)` axis order of the code. -/
abbrev Slab := List (List (List ℚ))

/-- Value `arr[i][j]` with numpy-style zero default outside the bounds: this `0`
default is exactly the `cval=0` zero padding of `downscale_local_mean`. -/
def getPix (arr : Image) (i j : ℕ) : ℚ :=
  (arr.getD i []).getD j 0

/-- Python `math.ceil(n / f)` for naturals. -/
def ceilDiv (n f : ℕ) : ℕ :=
  (n + f - 1) / f

/-- Model of `np.mean(arr, axis=2)`: collapse the depth axis by an arithmetic mean.
The divisor is the actual depth of each pixel's list. -/
def axialMean (arr : Slab) : Image :=
  arr.map fun row => row.map fun pix => pix.sum / (pix.length : ℚ)

/-- Sum of the `f × f` block at block coordinates `(a, b)`, reading
out-of-range pixels as `0` (the zero padding). -/
def blockSum (arr : Image) (f a b : ℕ) : ℚ :=
  ((List.range f).map fun i =>
    ((List.range f).map fun j => getPix arr (a * f + i) (b * f + j)).sum).sum

/-- Model of `skimage.transform.downscale_local_mean(arr, (f, f))`: pad `arr` with
zeros up to a multiple of `f` in each axis, then average each non-overlapping
`f × f` block; every block, padded or not, is divided by `f * f`. -/
def downscale_local_mean (arr : Image) (f : ℕ) : Image :=
  (List.range (ceilDiv arr.length f)).map fun a =>
    (List.range (ceilDiv (arr.getD 0 []).length f)).map fun b =>
      blockSum arr f a b / ((f : ℚ) * (f : ℚ))

/-- Model of `rebin_slab`: mean over the z-axis, then block mean over x/y. -/
def rebin_slab (arr : Slab) (factor : ℕ) : Image :=
  downscale_local_mean (axialMean arr) factor

/-- The two unsigned integer dtypes accepted by `save_jp2`. -/
inductive Dtype
  | uint8
  | uint16
  deriving Repr, DecidableEq

/-- Bit width of a dtype. -/
def dtypeBits : Dtype → ℕ
  | .uint8 => 8
  | .uint16 => 16

/-- numpy `astype(uintN)` applied to a float: truncate toward zero, then wrap
modulo `2 ^ N`.  (All values produced by the pipeline are non-negative.) -/
def npCastUint (q : ℚ) (bits : ℕ) : ℕ :=
  (Int.tdiv q.num (q.den : ℤ)).toNat % 2 ^ bits

/-- What `save_jp2` hands to the jp2 codec: the cast pixel array, the dtype
and the compression ratios.  The codec itself is an external collaborator. -/
structure FileContent where
  data : List (List ℕ)
  dtype : Dtype
  cratios : List ℕ
  deriving Repr, DecidableEq

/-- Model of `save_jp2(arr, path, dtype, cratios=...)` as the content it writes:
`jp2[:] = np.asarray(arr).astype(dtype)`. -/
def save_jp2_content (arr : Image) (dtype : Dtype) (cratios : List ℕ) :
    FileContent :=
  ⟨arr.map fun row => row.map fun q => npCastUint q (dtypeBits dtype),
    dtype, cratios⟩

/-- One input jp2 slice: its decoded pixel data, its dtype, and whether the
file decodes at all (`ok = false` models a corrupt/unreadable slice). -/
structure Slice where
  data : List (List ℚ)
  dtype : Dtype
  ok : Bool
  deriving Repr, DecidableEq

/-- The `(H, W)` shape of a slice, as numpy reports it. -/
def sliceShape (s : Slice) : ℕ × ℕ :=
  (s.data.length, (s.data.getD 0 []).length)

/-- Python `str(n)` for a natural number: decimal digits, no leading zeros. -/
def pyNatStr (n : ℕ) : List Char :=
  if h : n < 10 then [Char.ofNat (48 + n)]
  else pyNatStr (n / 10) ++ [Char.ofNat (48 + n % 10)]
  termination_by n
  decreasing_by
    exact Nat.div_lt_self (by omega) (by omega)

/-- Python `str(z).zfill(w)`: left-pad the decimal digits with `'0'`. -/
def zfill (s : List Char) (w : ℕ) : List Char :=
  List.replicate (w - s.length) '0' ++ s

/-- Output file path for output z-index `z`:
`output_directory / f"{fname_prefix}{str(z).zfill(6)}.jp2"`. -/
def outPath (outDir pre : String) (z : ℕ) : String :=
  outDir ++ "/" ++ pre ++ String.mk (zfill (pyNatStr z) 6) ++ ".jp2"

/-- A tiny filesystem: the set of existing directories and an association
list of file paths to contents (the later entry shadows, `write` removes any
older entry for the same path). -/
structure FS where
  dirs : List String
  files : List (String × FileContent)
  deriving Repr, DecidableEq

/-- Model of `Path.mkdir(exist_ok=True)`: create the directory if absent; never fails
and never touches files. -/
def FS.mkdirExistOk (fs : FS) (p : String) : FS :=
  if p ∈ fs.dirs then fs else ⟨p :: fs.dirs, fs.files⟩

/-- Write (create or overwrite) the file at `p`. -/
def FS.write (fs : FS) (p : String) (c : FileContent) : FS :=
  ⟨fs.dirs, (p, c) :: fs.files.filter fun e => e.1 ≠ p⟩

/-- Content of the file at `p`, if present. -/
def FS.read (fs : FS) (p : String) : Option FileContent :=
  fs.files.lookup p

/-- Observable side effects of a run, in program order. -/
inductive Event
  | mkdirEv (path : String)
  | writeEv (path : String) (content : FileContent)
  deriving Repr, DecidableEq

/-- The ways a run can stop with an exception. -/
inductive RebinErr
  /-- Raised by `raise ValueError(msg)` in the `bin_factor` validation. -/
  | paramError (msg : String)
  /-- Python `IndexError` from `j2ks[0]` when the directory holds no jp2. -/
  | indexError
  /-- Raised when `dask.array.stack` rejects slices of differing shapes. -/
  | stackShapeError
  /-- A slab read failed while materializing the slab of output index `z`
  (a corrupt slice decoded inside `np.asarray`). -/
  | slabReadError (z : ℕ)
  deriving Repr, DecidableEq

/-- The arguments of `rebin`.  `directory` is split into its parent path and
its final name; the sorted `directory.glob("*.jp2")` result is given as the
ordered slice list.  `bin_factor` is `ℚ` so that non-integer Python values
are representable. -/
structure RebinArgs where
  dirParent : String
  dirName : String
  slices : List Slice
  bin_factor : ℚ
  cratio : ℕ
  num_workers : ℕ := 4
  outDir : Option String := none
  fnamePre : String := ""
  deriving Repr, DecidableEq

deriving instance DecidableEq for Except

/-- Result of a run: the event trace, the final filesystem, and either the
returned output directory or the raised exception. -/
structure RunResult where
  events : List Event
  fs : FS
  result : Except RebinErr String
  deriving Repr, DecidableEq

/-- The slices making up the slab of output index `z`:
`volume[:, :, z * bin_factor : (z + 1) * bin_factor]` (Python slicing clamps
the stop index to the slice count). -/
def slabSlices (slices : List Slice) (f z : ℕ) : List Slice :=
  (slices.drop (z * f)).take f

/-- Materialize a slab list as an `(H, W, D)` array, the shape produced by
`da.stack([...], axis=-1)` restricted to the slab's z-range. -/
def slabArray (sl : List Slice) : Slab :=
  match sl with
  | [] => []
  | s :: _ =>
    (List.range s.data.length).map fun i =>
      (List.range (s.data.getD 0 []).length).map fun j =>
        sl.map fun t => getPix t.data i j

/-- A slab job succeeds iff every slice in its slab decodes. -/
def jobOk (slices : List Slice) (f z : ℕ) : Bool :=
  (slabSlices slices f z).all (·.ok)

/-- The content `rebin_and_save_slab` writes for output index `z`: the slab
is rebinned and handed to `save_jp2` with the input dtype and `[cratio]`. -/
def jobContent (slices : List Slice) (f z : ℕ) (dt : Dtype) (cratio : ℕ) :
    FileContent :=
  save_jp2_content (rebin_slab (slabArray (slabSlices slices f z)) f) dt
    [cratio]

/-- Execute the delayed slab jobs for the output indices `zs`, in order,
stopping at the first failing job and re-raising its exception (the
behaviour of `delayed(...).compute()`: no per-job catching, no aggregation
of failures). -/
def runJobs (slices : List Slice) (f : ℕ) (dt : Dtype) (cratio : ℕ)
    (outDir pre : String) (evs : List Event) (fs : FS) :
    List ℕ → RunResult
  | [] => ⟨evs, fs, .ok outDir⟩
  | z :: zs =>
    if jobOk slices f z then
      let c := jobContent slices f z dt cratio
      runJobs slices f dt cratio outDir pre
        (evs ++ [.writeEv (outPath outDir pre z) c])
        (fs.write (outPath outDir pre z) c) zs
    else
      ⟨evs, fs, .error (.slabReadError z)⟩

/-- The output directory `rebin` targets: the explicit `output_directory` if
supplied, else the sibling `<input_dir>_bin<factor>`. -/
def rebinOutDir (a : RebinArgs) (f : ℕ) : String :=
  a.outDir.getD
    (a.dirParent ++ "/" ++ a.dirName ++ "_bin" ++ String.mk (pyNatStr f))

/-- Model of `rebin(directory, bin_factor=..., cratio=..., ...)`, step by step in the
order of the source: validate `bin_factor`, glob (the slice list is given),
derive and create the output directory, construct the Jp2k objects and index
the first one, stack the lazy volume, then run one delayed job per output
z-index.  `num_workers` only sizes the worker pool and is not consulted by
any step that determines outputs. -/
def rebin (fs0 : FS) (a : RebinArgs) : RunResult :=
  if a.bin_factor ≤ 1 then
    ⟨[], fs0, .error (.paramError "bin_factor must be > 1")⟩
  else if a.bin_factor.den ≠ 1 then
    ⟨[], fs0, .error (.paramError "bin_factor must be an integer")⟩
  else
    let f : ℕ := a.bin_factor.num.toNat
    let outDir : String := rebinOutDir a f
    let fs1 := fs0.mkdirExistOk outDir
    let evs := [Event.mkdirEv outDir]
    match a.slices with
    | [] => ⟨evs, fs1, .error .indexError⟩
    | s0 :: rest =>
      if (s0 :: rest).all (fun s => sliceShape s = sliceShape s0) then
        runJobs a.slices f s0.dtype a.cratio outDir a.fnamePre evs fs1
          (List.range (ceilDiv (s0 :: rest).length f))
      else
        ⟨evs, fs1, .error .stackShapeError⟩

/-! ### Helper lemmas -/

theorem ceilDiv_eq_div_add_one {n f : ℕ} (hf : 0 < f) (hrem : n % f ≠ 0) :
    ceilDiv n f = n / f + 1 := by
  have hmod := Nat.div_add_mod n f
  have hlt := Nat.mod_lt n hf
  unfold ceilDiv
  have e1 : (n / f + 1) * f = f * (n / f) + f := by ring
  have h1 : n + f - 1 = (n % f - 1) + (n / f + 1) * f := by omega
  rw [h1, Nat.add_mul_div_right _ _ hf]
  have h2 : (n % f - 1) / f = 0 := Nat.div_eq_of_lt (by omega)
  omega

theorem ceilDiv_eq_div {n f : ℕ} (hf : 0 < f) (hrem : n % f = 0) :
    ceilDiv n f = n / f := by
  have hmod := Nat.div_add_mod n f
  unfold ceilDiv
  have e1 : n / f * f = f * (n / f) := Nat.mul_comm _ _
  have h1 : n + f - 1 = (f - 1) + (n / f) * f := by omega
  rw [h1, Nat.add_mul_div_right _ _ hf]
  have h2 : (f - 1) / f = 0 := Nat.div_eq_of_lt (by omega)
  omega

theorem div_lt_ceilDiv {n f : ℕ} (hf : 0 < f) (hrem : n % f ≠ 0) :
    n / f < ceilDiv n f := by
  rw [ceilDiv_eq_div_add_one hf hrem]; omega

theorem getD_map_range {α : Type} {n i : ℕ} (g : ℕ → α) (d : α) :
    ((List.range n).map g).getD i d = if i < n then g i else d := by
  by_cases h : i < n
  · simp [List.getD_eq_getElem?_getD, List.getElem?_map, List.getElem?_range, h]
  · have hnone : (List.range n)[i]? = none :=
      List.getElem?_eq_none (by simpa using Nat.le_of_not_lt h)
    simp [List.getD_eq_getElem?_getD, List.getElem?_map, hnone, h]

theorem blockSum_eq_sum (arr : Image) (f a b : ℕ) :
    blockSum arr f a b
      = ∑ i ∈ Finset.range f, ∑ j ∈ Finset.range f,
          getPix arr (a * f + i) (b * f + j) := rfl

/-! ### Claim theorems -/

/-- The single-slice 3×2 slab of the spec's worked example, in `(H, W, D)`
axis order: depth 1, rows `[0,1]`, `[2,5]`, `[10,12]`. -/
def slabC1 : Slab := [[[0], [1]], [[2], [5]], [[10], [12]]]

/-- Claim C1: when the spatial extent is not divisible by the factor, the
block-mean stage zero-pads the final row of blocks and still divides each
edge block by `factor²`: the edge-block output is the sum of the in-bounds
pixels alone, divided by `f * f`.  Concretely, rebinning the single-slice
3×2 slab `[[0,1],[2,5],[10,12]]` with factor 2 yields `[[2],[11/2]]`, and
casting to the unsigned dtype truncates the edge value to 5, so `save_jp2`
writes `[[2],[5]]`. -/
theorem C1_edge_blocks_zero_padded (arr : Image) (f b : ℕ)
    (hf : 0 < f) (hrem : arr.length % f ≠ 0)
    (hb : b < ceilDiv (arr.getD 0 []).length f) :
    getPix (downscale_local_mean arr f) (arr.length / f) b
      = (∑ i ∈ Finset.range (arr.length % f), ∑ j ∈ Finset.range f,
          getPix arr (arr.length / f * f + i) (b * f + j)) / ((f : ℚ) * f)
    ∧ rebin_slab slabC1 2 = [[2], [11 / 2]]
    ∧ save_jp2_content (rebin_slab slabC1 2) .uint16 [10]
        = ⟨[[2], [5]], .uint16, [10]⟩ := by
  refine ⟨?_, by with_unfolding_all decide, by with_unfolding_all decide⟩
  have ha : arr.length / f < ceilDiv arr.length f := div_lt_ceilDiv hf hrem
  have hL : getPix (downscale_local_mean arr f) (arr.length / f) b
      = blockSum arr f (arr.length / f) b / ((f : ℚ) * f) := by
    unfold downscale_local_mean getPix
    rw [getD_map_range, if_pos ha, getD_map_range, if_pos hb]
  rw [hL, blockSum_eq_sum]
  congr 1
  refine (Finset.sum_subset
    (Finset.range_subset.mpr (Nat.mod_lt _ hf).le) ?_).symm
  intro i _ hi
  have hrow : arr.length ≤ arr.length / f * f + i := by
    have hmod := Nat.div_add_mod arr.length f
    have e : arr.length / f * f = f * (arr.length / f) := Nat.mul_comm _ _
    simp only [Finset.mem_range, not_lt] at hi
    omega
  have hnone : arr[arr.length / f * f + i]? = none :=
    List.getElem?_eq_none hrow
  refine Finset.sum_eq_zero fun j _ => ?_
  simp [getPix, List.getD_eq_getElem?_getD, hnone]

/-- Witness for C1 at the concrete example: the 3×2 axial-mean image with
factor 2 (last block row index `3 / 2 = 1`, remainder `3 % 2 = 1`). -/
theorem C1_edge_blocks_zero_padded_witness :
    (getPix (downscale_local_mean [[0, 1], [2, 5], [10, 12]] 2)
        (([[0, 1], [2, 5], [10, 12]] : Image).length / 2) 0
      = (∑ i ∈ Finset.range (([[0, 1], [2, 5], [10, 12]] : Image).length % 2),
          ∑ j ∈ Finset.range 2,
            getPix [[0, 1], [2, 5], [10, 12]]
              (([[0, 1], [2, 5], [10, 12]] : Image).length / 2 * 2 + i)
              (0 * 2 + j)) / ((2 : ℚ) * 2)
    ∧ rebin_slab slabC1 2 = [[2], [11 / 2]]
    ∧ save_jp2_content (rebin_slab slabC1 2) .uint16 [10]
        = ⟨[[2], [5]], .uint16, [10]⟩) :=
  C1_edge_blocks_zero_padded [[0, 1], [2, 5], [10, 12]] 2 0
    (by decide) (by with_unfolding_all decide) (by with_unfolding_all decide)

/-- Claim C2: the job for output z-index `z` covers exactly the input
z-range `[z*f, min((z+1)*f, N))`; when `N` is not divisible by `f` the final
slab has depth `N % f`; and the axial mean of a slab divides by the actual
slab depth (the length of the slab's slice list), not by `f`. -/
theorem C2_slab_coverage_and_axial_divisor (slices : List Slice) (f z : ℕ)
    (hf : 0 < f) (hz : z < ceilDiv slices.length f) :
    (slabSlices slices f z).length
        = min ((z + 1) * f) slices.length - z * f
    ∧ (∀ k, k < (slabSlices slices f z).length →
        (slabSlices slices f z)[k]? = slices[z * f + k]?)
    ∧ (slices.length % f ≠ 0 → z = ceilDiv slices.length f - 1 →
        (slabSlices slices f z).length = slices.length % f)
    ∧ (∀ (s : Slice) (tl : List Slice) (i j : ℕ),
        i < s.data.length → j < (s.data.getD 0 []).length →
        getPix (axialMean (slabArray (s :: tl))) i j
          = ((s :: tl).map fun t => getPix t.data i j).sum
              / (((s :: tl).length : ℕ) : ℚ)) := by
  have hlen : (slabSlices slices f z).length
      = min f (slices.length - z * f) := by
    simp [slabSlices]
  refine ⟨?_, ?_, ?_, ?_⟩
  · have e : (z + 1) * f = z * f + f := by ring
    omega
  · intro k hk
    have hkf : k < f := by
      rw [hlen] at hk; omega
    unfold slabSlices
    rw [List.getElem?_take_of_lt hkf, List.getElem?_drop]
  · intro hrem hz1
    have hceil := ceilDiv_eq_div_add_one hf hrem
    have hmod := Nat.div_add_mod slices.length f
    have hltf := Nat.mod_lt slices.length hf
    have e : z * f = f * z := Nat.mul_comm _ _
    have hzval : z = slices.length / f := by omega
    subst hzval
    rw [hlen]
    have e2 : slices.length / f * f = f * (slices.length / f) :=
      Nat.mul_comm _ _
    omega
  · intro s tl i j hi hj
    have harr : slabArray (s :: tl)
        = (List.range s.data.length).map fun i =>
            (List.range (s.data.getD 0 []).length).map fun j =>
              (s :: tl).map fun t => getPix t.data i j := rfl
    unfold axialMean getPix
    rw [harr, List.map_map, getD_map_range, if_pos hi]
    simp only [Function.comp]
    rw [List.map_map, getD_map_range, if_pos hj]
    simp [getPix, List.getD_eq_getElem?_getD]

/-! ### Decimal strings and path injectivity -/

/-- Decimal value of a digit string; left inverse of `zfill ∘ pyNatStr`. -/
def decodeChars (l : List Char) : ℕ :=
  l.foldl (fun n c => n * 10 + (c.toNat - 48)) 0

theorem charOfNat_digit_toNat {d : ℕ} (h : d < 10) :
    (Char.ofNat (48 + d)).toNat = 48 + d := by
  have hv : Nat.isValidChar (48 + d) := by
    left; omega
  simp [Char.ofNat, hv, Char.toNat, Char.ofNatAux, UInt32.toNat,
    BitVec.toNat_ofNatLt]

theorem decodeChars_append_digit (l : List Char) (c : Char) :
    decodeChars (l ++ [c]) = decodeChars l * 10 + (c.toNat - 48) := by
  simp [decodeChars, List.foldl_append]

theorem decodeChars_pyNatStr (n : ℕ) : decodeChars (pyNatStr n) = n := by
  induction n using Nat.strong_induction_on with
  | _ n ih =>
    unfold pyNatStr
    split
    · rename_i h
      simp [decodeChars, charOfNat_digit_toNat h]
    · rename_i h
      rw [decodeChars_append_digit,
        ih (n / 10) (Nat.div_lt_self (by omega) (by omega)),
        charOfNat_digit_toNat (Nat.mod_lt n (by omega))]
      omega

theorem decodeChars_zfill (l : List Char) (w : ℕ) :
    decodeChars (zfill l w) = decodeChars l := by
  unfold zfill decodeChars
  rw [List.foldl_append]
  congr 1
  induction (w - l.length) with
  | zero => rfl
  | succ k ihk =>
    rw [List.replicate_succ, List.foldl_cons]
    simpa using ihk

theorem zfill_pyNatStr_inj {w z1 z2 : ℕ}
    (h : zfill (pyNatStr z1) w = zfill (pyNatStr z2) w) : z1 = z2 := by
  have h1 := congrArg decodeChars h
  rwa [decodeChars_zfill, decodeChars_zfill, decodeChars_pyNatStr,
    decodeChars_pyNatStr] at h1

theorem outPath_inj {outDir pre : String} {z1 z2 : ℕ}
    (h : outPath outDir pre z1 = outPath outDir pre z2) : z1 = z2 := by
  have hd : (outPath outDir pre z1).data = (outPath outDir pre z2).data := by
    rw [h]
  simp only [outPath, String.data_append, List.append_assoc] at hd
  have h1 := List.append_cancel_left hd
  have h2 := List.append_cancel_left h1
  have h3 := List.append_cancel_left h2
  have h4 := List.append_cancel_right h3
  exact zfill_pyNatStr_inj h4

/-! ### Filesystem lemmas -/

theorem lookup_filter_ne {q p : String} (l : List (String × FileContent))
    (h : q ≠ p) :
    (l.filter fun e => e.1 ≠ p).lookup q = l.lookup q := by
  induction l with
  | nil => rfl
  | cons e l ihl =>
    by_cases he : e.1 = p
    · have : ¬(e.1 ≠ p) := by simpa using he
      rw [List.filter_cons_of_neg (by simpa using he)]
      rw [ihl]
      have : q ≠ e.1 := by rw [he]; exact h
      simp [List.lookup, beq_false_of_ne this]
    · rw [List.filter_cons_of_pos (by simpa using he)]
      by_cases hq : q = e.1
      · simp [List.lookup, hq]
      · simp only [ne_eq, decide_not] at ihl ⊢
        simp [List.lookup, beq_false_of_ne hq, ihl]

theorem read_write_self (fs : FS) (p : String) (c : FileContent) :
    (fs.write p c).read p = some c := by
  simp [FS.write, FS.read, List.lookup]

theorem read_write_other (fs : FS) {p q : String} (c : FileContent)
    (h : q ≠ p) : (fs.write p c).read q = fs.read q := by
  simp only [FS.write, FS.read, List.lookup, beq_false_of_ne h]
  exact lookup_filter_ne fs.files h

theorem write_dirs (fs : FS) (p : String) (c : FileContent) :
    (fs.write p c).dirs = fs.dirs := rfl

theorem mkdirExistOk_files (fs : FS) (p : String) :
    (fs.mkdirExistOk p).files = fs.files := by
  unfold FS.mkdirExistOk
  split <;> rfl

theorem mem_mkdirExistOk_dirs (fs : FS) (p : String) :
    p ∈ (fs.mkdirExistOk p).dirs := by
  unfold FS.mkdirExistOk
  split
  · assumption
  · exact List.mem_cons_self _ _

theorem mkdirExistOk_of_mem (fs : FS) {p : String} (h : p ∈ fs.dirs) :
    fs.mkdirExistOk p = fs := by
  unfold FS.mkdirExistOk
  simp [h]

/-! ### Job lists -/

/-- The jobs of a run as (path, content) pairs, one per output z-index. -/
def jobsList (slices : List Slice) (f : ℕ) (dt : Dtype) (cratio : ℕ)
    (outDir pre : String) (zs : List ℕ) : List (String × FileContent) :=
  zs.map fun z => (outPath outDir pre z, jobContent slices f z dt cratio)

/-- Apply a list of output writes to the filesystem, in list order. -/
def applyJobs (fs : FS) (js : List (String × FileContent)) : FS :=
  js.foldl (fun fs j => fs.write j.1 j.2) fs

theorem applyJobs_nil (fs : FS) : applyJobs fs [] = fs := rfl

theorem applyJobs_cons (fs : FS) (j : String × FileContent)
    (js : List (String × FileContent)) :
    applyJobs fs (j :: js) = applyJobs (fs.write j.1 j.2) js := rfl

theorem applyJobs_dirs (js : List (String × FileContent)) (fs : FS) :
    (applyJobs fs js).dirs = fs.dirs := by
  induction js generalizing fs with
  | nil => rfl
  | cons j js ihj =>
    rw [applyJobs_cons, ihj, write_dirs]

theorem applyJobs_read_not_mem (js : List (String × FileContent)) (fs : FS)
    {p : String} (h : p ∉ js.map Prod.fst) :
    (applyJobs fs js).read p = fs.read p := by
  induction js generalizing fs with
  | nil => rfl
  | cons j js ihj =>
    simp only [List.map_cons, List.mem_cons] at h
    push_neg at h
    rw [applyJobs_cons, ihj _ h.2, read_write_other _ _ h.1]

theorem applyJobs_read_mem (js : List (String × FileContent)) (fs : FS)
    {p : String} {c : FileContent} (hnd : (js.map Prod.fst).Nodup)
    (hmem : (p, c) ∈ js) :
    (applyJobs fs js).read p = some c := by
  induction js generalizing fs with
  | nil => cases hmem
  | cons j js ihj =>
    simp only [List.map_cons, List.nodup_cons] at hnd
    rcases List.mem_cons.mp hmem with he | hm
    · subst he
      rw [applyJobs_cons,
        applyJobs_read_not_mem js _ (by simpa using hnd.1),
        read_write_self]
    · exact ihj _ hnd.2 hm

/-! ### Run characterization -/

theorem runJobs_all_ok (slices : List Slice) (f : ℕ) (dt : Dtype)
    (cratio : ℕ) (outDir pre : String) (zs : List ℕ) (evs : List Event)
    (fs : FS) (hok : ∀ z ∈ zs, jobOk slices f z = true) :
    runJobs slices f dt cratio outDir pre evs fs zs =
      ⟨evs ++ zs.map fun z =>
          .writeEv (outPath outDir pre z) (jobContent slices f z dt cratio),
        applyJobs fs (jobsList slices f dt cratio outDir pre zs),
        .ok outDir⟩ := by
  induction zs generalizing evs fs with
  | nil => simp [runJobs, jobsList, applyJobs]
  | cons z zs ihz =>
    rw [runJobs, if_pos (hok z (List.mem_cons_self _ _)),
      ihz _ _ fun z' hz' => hok z' (List.mem_cons_of_mem _ hz')]
    simp [jobsList, applyJobs_cons, List.append_assoc]

theorem runJobs_fail (slices : List Slice) (f : ℕ) (dt : Dtype) (cratio : ℕ)
    (outDir pre : String) (good : List ℕ) (z0 : ℕ) (rest : List ℕ)
    (evs : List Event) (fs : FS)
    (hgood : ∀ z ∈ good, jobOk slices f z = true)
    (hbad : jobOk slices f z0 = false) :
    runJobs slices f dt cratio outDir pre evs fs (good ++ z0 :: rest) =
      ⟨evs ++ good.map fun z =>
          .writeEv (outPath outDir pre z) (jobContent slices f z dt cratio),
        applyJobs fs (jobsList slices f dt cratio outDir pre good),
        .error (.slabReadError z0)⟩ := by
  induction good generalizing evs fs with
  | nil =>
    rw [List.nil_append, runJobs, if_neg (by simp [hbad])]
    simp [jobsList, applyJobs]
  | cons z good ihg =>
    rw [List.cons_append, runJobs, if_pos (hgood z (List.mem_cons_self _ _)),
      ihg _ _ fun z' h' => hgood z' (List.mem_cons_of_mem _ h')]
    simp [jobsList, applyJobs_cons, List.append_assoc]

theorem rebin_eq_runJobs (fs0 : FS) (a : RebinArgs) (f : ℕ) (s0 : Slice)
    (rest : List Slice) (hbf : a.bin_factor = (f : ℚ)) (hf : 2 ≤ f)
    (hsl : a.slices = s0 :: rest)
    (hcons : ((s0 :: rest).all fun s => sliceShape s = sliceShape s0)
      = true) :
    rebin fs0 a =
      runJobs a.slices f s0.dtype a.cratio (rebinOutDir a f) a.fnamePre
        [.mkdirEv (rebinOutDir a f)] (fs0.mkdirExistOk (rebinOutDir a f))
        (List.range (ceilDiv a.slices.length f)) := by
  obtain ⟨dp, dn, sl, bf, cr, nw, od, fp⟩ := a
  dsimp only at hbf hsl hcons ⊢
  subst hbf
  subst hsl
  have h1 : ¬ ((f : ℚ) ≤ 1) := by
    push_neg
    exact_mod_cast (by omega : (1 : ℕ) < f)
  have h2 : ¬ (((f : ℚ)).den ≠ 1) := by simp
  rw [rebin, if_neg h1, if_neg h2]
  dsimp only
  rw [if_pos hcons]
  rfl

theorem range_split (z n : ℕ) (h : z ≤ n) :
    List.range n = List.range z ++ List.range' z (n - z) := by
  rw [List.range_eq_range', List.range_eq_range']
  have hap := List.range'_append_1 0 z (n - z)
  simp only [Nat.zero_add] at hap
  rw [hap, Nat.add_comm, Nat.add_sub_cancel' h]

theorem mul_lt_of_lt_ceilDiv {z N f : ℕ} (hf : 0 < f)
    (hz : z < ceilDiv N f) : z * f < N := by
  by_contra hc
  push_neg at hc
  have hmono : ceilDiv N f ≤ (z * f + f - 1) / f :=
    Nat.div_le_div_right (by omega)
  have hev : z * f + f - 1 = (f - 1) + z * f := by omega
  have hdiv : (z * f + f - 1) / f = z := by
    rw [hev, Nat.add_mul_div_right _ _ hf,
      Nat.div_eq_of_lt (by omega : f - 1 < f)]
    omega
  omega

theorem jobsList_keys_nodup (slices : List Slice) (f : ℕ) (dt : Dtype)
    (cratio : ℕ) (outDir pre : String) (n : ℕ) :
    ((jobsList slices f dt cratio outDir pre (List.range n)).map
      Prod.fst).Nodup := by
  unfold jobsList
  rw [List.map_map]
  refine List.Nodup.map ?_ (List.nodup_range n)
  intro z1 z2 h
  exact outPath_inj (by simpa using h)

theorem mem_jobsList (slices : List Slice) (f : ℕ) (dt : Dtype) (cratio : ℕ)
    (outDir pre : String) {n z : ℕ} (hz : z < n) :
    (outPath outDir pre z, jobContent slices f z dt cratio)
      ∈ jobsList slices f dt cratio outDir pre (List.range n) :=
  List.mem_map.mpr ⟨z, List.mem_range.mpr hz, rfl⟩

theorem rebin_success_eq (fs0 : FS) (a : RebinArgs) (f : ℕ) (s0 : Slice)
    (rest : List Slice) (hbf : a.bin_factor = (f : ℚ)) (hf : 2 ≤ f)
    (hsl : a.slices = s0 :: rest)
    (hcons : ((s0 :: rest).all fun s => sliceShape s = sliceShape s0) = true)
    (hok : ∀ z ∈ List.range (ceilDiv a.slices.length f),
      jobOk a.slices f z = true) :
    rebin fs0 a =
      ⟨.mkdirEv (rebinOutDir a f) ::
          (List.range (ceilDiv a.slices.length f)).map fun z =>
            .writeEv (outPath (rebinOutDir a f) a.fnamePre z)
              (jobContent a.slices f z s0.dtype a.cratio),
        applyJobs (fs0.mkdirExistOk (rebinOutDir a f))
          (jobsList a.slices f s0.dtype a.cratio (rebinOutDir a f)
            a.fnamePre (List.range (ceilDiv a.slices.length f))),
        .ok (rebinOutDir a f)⟩ := by
  rw [rebin_eq_runJobs fs0 a f s0 rest hbf hf hsl hcons,
    runJobs_all_ok _ _ _ _ _ _ _ _ _ hok]
  rfl

theorem slabSlices_cons {slices : List Slice} {f z : ℕ} (hf : 0 < f)
    (hz : z < ceilDiv slices.length f) :
    ∃ t tl, slabSlices slices f z = t :: tl ∧ t ∈ slices := by
  have hlt := mul_lt_of_lt_ceilDiv hf hz
  have hlen : (slabSlices slices f z).length
      = min f (slices.length - z * f) := by
    simp [slabSlices]
  match hsl : slabSlices slices f z with
  | [] =>
    rw [hsl] at hlen
    simp at hlen
    omega
  | t :: tl =>
    refine ⟨t, tl, rfl, ?_⟩
    have : t ∈ slabSlices slices f z := by
      rw [hsl]; exact List.mem_cons_self _ _
    exact List.drop_subset _ _ (List.take_subset _ _ this)

theorem rebinSlab_shape (f : ℕ) (t : Slice) (tl : List Slice)
    (hH : 0 < t.data.length) :
    (rebin_slab (slabArray (t :: tl)) f).length = ceilDiv t.data.length f
    ∧ ∀ row ∈ rebin_slab (slabArray (t :: tl)) f,
        row.length = ceilDiv (t.data.getD 0 []).length f := by
  have hW : ((axialMean (slabArray (t :: tl))).getD 0 []).length
      = (t.data.getD 0 []).length := by
    unfold axialMean slabArray
    rw [List.map_map, getD_map_range, if_pos hH]
    simp
  constructor
  · simp [rebin_slab, downscale_local_mean, axialMean, slabArray]
  · intro row hrow
    simp only [rebin_slab, downscale_local_mean] at hrow
    rcases List.mem_map.mp hrow with ⟨a, _, rfl⟩
    rw [List.length_map, List.length_range, hW]

theorem jobContent_shape (slices : List Slice) (f z : ℕ) (dt : Dtype)
    (cr : ℕ) (t : Slice) (tl : List Slice)
    (hsl : slabSlices slices f z = t :: tl) (hH : 0 < t.data.length) :
    (jobContent slices f z dt cr).data.length = ceilDiv t.data.length f
    ∧ ∀ row ∈ (jobContent slices f z dt cr).data,
        row.length = ceilDiv (t.data.getD 0 []).length f := by
  have hshape := rebinSlab_shape f t tl hH
  unfold jobContent save_jp2_content
  rw [hsl]
  constructor
  · rw [List.length_map]
    exact hshape.1
  · intro row hrow
    rcases List.mem_map.mp hrow with ⟨r, hr, rfl⟩
    rw [List.length_map]
    exact hshape.2 r hr

/-- Whether an event is a file write. -/
def isWriteEv : Event → Bool
  | .writeEv _ _ => true
  | _ => false

/-- Concrete 2×2 uint16 slices for witness runs. -/
def sliceA : Slice := ⟨[[0, 1], [2, 5]], .uint16, true⟩

/-- Second witness slice. -/
def sliceB : Slice := ⟨[[4, 4], [4, 4]], .uint16, true⟩

/-- Third witness slice. -/
def sliceC : Slice := ⟨[[8, 8], [8, 8]], .uint16, true⟩

/-- A concrete three-slice run with `bin_factor = 2` (final slab partial). -/
def argsW : RebinArgs :=
  { dirParent := "base", dirName := "ims", slices := [sliceA, sliceB, sliceC],
    bin_factor := 2, cratio := 10 }

/-- Claim C3: for a valid integer factor, a nonempty shape-consistent stack
and fully readable slices, the run succeeds; it performs exactly
`ceil(N/f)` writes, the `z`-th write targeting
`<output_dir>/<fname_prefix><z zero-padded to six digits>.jp2`; and every
written image has shape `(ceil(H/f), ceil(W/f))`. -/
theorem C3_output_count_names_shapes (fs0 : FS) (a : RebinArgs) (f : ℕ)
    (s0 : Slice) (rest : List Slice)
    (hbf : a.bin_factor = (f : ℚ)) (hf : 2 ≤ f)
    (hsl : a.slices = s0 :: rest)
    (hcons : ((s0 :: rest).all fun s => sliceShape s = sliceShape s0) = true)
    (hok : ∀ z ∈ List.range (ceilDiv a.slices.length f),
      jobOk a.slices f z = true)
    (hH : 0 < s0.data.length) :
    (rebin fs0 a).result = Except.ok (rebinOutDir a f)
    ∧ (rebin fs0 a).events
        = Event.mkdirEv (rebinOutDir a f) ::
            ((List.range (ceilDiv a.slices.length f)).map fun z =>
              Event.writeEv (outPath (rebinOutDir a f) a.fnamePre z)
                (jobContent a.slices f z s0.dtype a.cratio))
    ∧ ((rebin fs0 a).events.filter isWriteEv).length
        = ceilDiv a.slices.length f
    ∧ ∀ z ∈ List.range (ceilDiv a.slices.length f),
        (jobContent a.slices f z s0.dtype a.cratio).data.length
            = ceilDiv s0.data.length f
        ∧ ∀ row ∈ (jobContent a.slices f z s0.dtype a.cratio).data,
            row.length = ceilDiv (s0.data.getD 0 []).length f := by
  have hrun := rebin_success_eq fs0 a f s0 rest hbf hf hsl hcons hok
  refine ⟨by rw [hrun], by rw [hrun], ?_, ?_⟩
  · rw [hrun]
    show (List.filter isWriteEv _).length = _
    have hall : ∀ e ∈ (List.range (ceilDiv a.slices.length f)).map fun z =>
        Event.writeEv (outPath (rebinOutDir a f) a.fnamePre z)
          (jobContent a.slices f z s0.dtype a.cratio), isWriteEv e = true := by
      intro e he
      rcases List.mem_map.mp he with ⟨z, _, rfl⟩
      rfl
    rw [List.filter_cons_of_neg (by simp [isWriteEv]),
      List.filter_eq_self.mpr hall]
    simp
  · intro z hz
    obtain ⟨t, tl, hsl2, htmem⟩ :=
      slabSlices_cons (by omega) (List.mem_range.mp hz)
    have hts : sliceShape t = sliceShape s0 := by
      rw [hsl] at htmem
      have := List.all_eq_true.mp hcons t htmem
      simpa using this
    have hH' : t.data.length = s0.data.length := congrArg Prod.fst hts
    have hW' : (t.data.getD 0 []).length = (s0.data.getD 0 []).length :=
      congrArg Prod.snd hts
    have hsh := jobContent_shape a.slices f z s0.dtype a.cratio t tl hsl2
      (by omega)
    rw [hH', hW'] at hsh
    exact hsh

/-- Witness for C3: the three-slice run with factor 2. -/
theorem C3_output_count_names_shapes_witness :
    (rebin ⟨[], []⟩ argsW).result = Except.ok (rebinOutDir argsW 2)
    ∧ (rebin ⟨[], []⟩ argsW).events
        = Event.mkdirEv (rebinOutDir argsW 2) ::
            ((List.range (ceilDiv argsW.slices.length 2)).map fun z =>
              Event.writeEv (outPath (rebinOutDir argsW 2) argsW.fnamePre z)
                (jobContent argsW.slices 2 z sliceA.dtype argsW.cratio))
    ∧ ((rebin ⟨[], []⟩ argsW).events.filter isWriteEv).length
        = ceilDiv argsW.slices.length 2
    ∧ ∀ z ∈ List.range (ceilDiv argsW.slices.length 2),
        (jobContent argsW.slices 2 z sliceA.dtype argsW.cratio).data.length
            = ceilDiv sliceA.data.length 2
        ∧ ∀ row ∈ (jobContent argsW.slices 2 z sliceA.dtype
            argsW.cratio).data,
            row.length = ceilDiv (sliceA.data.getD 0 []).length 2 :=
  C3_output_count_names_shapes ⟨[], []⟩ argsW 2 sliceA [sliceB, sliceC]
    rfl (by omega) rfl (by decide) (by decide) (by decide)

theorem runJobs_result_ne_param (slices : List Slice) (f : ℕ) (dt : Dtype)
    (cr : ℕ) (outDir pre : String) (zs : List ℕ) (evs : List Event) (fs : FS)
    (msg : String) :
    (runJobs slices f dt cr outDir pre evs fs zs).result
      ≠ Except.error (RebinErr.paramError msg) := by
  induction zs generalizing evs fs with
  | nil => simp [runJobs]
  | cons z zs ihz =>
    rw [runJobs]
    split
    · exact ihz _ _
    · simp

/-- A one-slice argument record with `bin_factor = 1` (range violation). -/
def argsOne : RebinArgs :=
  { dirParent := "base", dirName := "ims", slices := [sliceA],
    bin_factor := 1, cratio := 10 }

/-- A no-slice argument record with a valid `bin_factor = 2`. -/
def argsEmptyW : RebinArgs :=
  { dirParent := "base", dirName := "ims", slices := [],
    bin_factor := 2, cratio := 10 }

/-- Claim C4: a `bin_factor` that is ≤ 1 or non-integer makes `rebin` raise
the matching `ValueError` (the spec's ParameterError) before any I/O: the
event trace is empty, the filesystem is untouched, and in particular no
output directory is created. -/
theorem C4_invalid_bin_factor_no_io (fs0 : FS) (a : RebinArgs)
    (h : a.bin_factor ≤ 1 ∨ a.bin_factor.den ≠ 1) :
    (rebin fs0 a).events = [] ∧ (rebin fs0 a).fs = fs0
    ∧ (∃ msg, (rebin fs0 a).result = Except.error (RebinErr.paramError msg))
    ∧ (a.bin_factor ≤ 1 →
        (rebin fs0 a).result
          = Except.error (RebinErr.paramError "bin_factor must be > 1"))
    ∧ (1 < a.bin_factor → a.bin_factor.den ≠ 1 →
        (rebin fs0 a).result
          = Except.error
              (RebinErr.paramError "bin_factor must be an integer")) := by
  by_cases h1 : a.bin_factor ≤ 1
  · rw [rebin, if_pos h1]
    exact ⟨rfl, rfl, ⟨_, rfl⟩, fun _ => rfl,
      fun hlt _ => absurd h1 (not_le.mpr hlt)⟩
  · have h2 : a.bin_factor.den ≠ 1 := h.resolve_left h1
    rw [rebin, if_neg h1, if_pos h2]
    exact ⟨rfl, rfl, ⟨_, rfl⟩, fun hle => absurd hle h1, fun _ _ => rfl⟩

/-- Witness for C4 at `bin_factor = 1`. -/
theorem C4_invalid_bin_factor_no_io_witness :
    (rebin ⟨[], []⟩ argsOne).events = [] ∧ (rebin ⟨[], []⟩ argsOne).fs = ⟨[], []⟩
    ∧ (∃ msg, (rebin ⟨[], []⟩ argsOne).result
        = Except.error (RebinErr.paramError msg))
    ∧ (argsOne.bin_factor ≤ 1 →
        (rebin ⟨[], []⟩ argsOne).result
          = Except.error (RebinErr.paramError "bin_factor must be > 1"))
    ∧ (1 < argsOne.bin_factor → argsOne.bin_factor.den ≠ 1 →
        (rebin ⟨[], []⟩ argsOne).result
          = Except.error
              (RebinErr.paramError "bin_factor must be an integer")) :=
  C4_invalid_bin_factor_no_io ⟨[], []⟩ argsOne (Or.inl (le_refl 1))

/-- Claim C9: the range check runs before the integrality check: every
`bin_factor ≤ 1` (integer or not) raises the "must be > 1" message, and
the "must be an integer" message is raised exactly when `bin_factor` is a
non-integer strictly greater than 1. -/
theorem C9_range_check_before_integer_check (fs0 : FS) (a : RebinArgs) :
    (a.bin_factor ≤ 1 →
      (rebin fs0 a).result
        = Except.error (RebinErr.paramError "bin_factor must be > 1"))
    ∧ ((rebin fs0 a).result
        = Except.error (RebinErr.paramError "bin_factor must be an integer")
      ↔ 1 < a.bin_factor ∧ a.bin_factor.den ≠ 1) := by
  constructor
  · intro h1
    rw [rebin, if_pos h1]
  · constructor
    · intro hres
      by_cases h1 : a.bin_factor ≤ 1
      · rw [rebin, if_pos h1] at hres
        exact absurd hres (by simp)
      · by_cases h2 : a.bin_factor.den ≠ 1
        · exact ⟨not_le.mp h1, h2⟩
        · exfalso
          rw [rebin, if_neg h1, if_neg h2] at hres
          rcases hsl : a.slices with _ | ⟨s0, rest⟩ <;> rw [hsl] at hres
          · simp at hres
          · dsimp only at hres
            split at hres
            · exact runJobs_result_ne_param _ _ _ _ _ _ _ _ _ _ hres
            · simp at hres
    · rintro ⟨hlt, hden⟩
      rw [rebin, if_neg (not_le.mpr hlt), if_pos hden]

/-- Witness for C9: the first conjunct fires at the non-integer value
`bin_factor = 1/2 ≤ 1`, giving the range message rather than the
integrality message. -/
theorem C9_range_check_before_integer_check_witness :
    (({ argsOne with bin_factor := 1 / 2 } : RebinArgs).bin_factor ≤ 1 →
      (rebin ⟨[], []⟩ { argsOne with bin_factor := 1 / 2 }).result
        = Except.error (RebinErr.paramError "bin_factor must be > 1"))
    ∧ ((rebin ⟨[], []⟩ { argsOne with bin_factor := 1 / 2 }).result
        = Except.error (RebinErr.paramError "bin_factor must be an integer")
      ↔ 1 < ({ argsOne with bin_factor := 1 / 2 } : RebinArgs).bin_factor
        ∧ ({ argsOne with bin_factor := 1 / 2 } : RebinArgs).bin_factor.den
            ≠ 1) :=
  C9_range_check_before_integer_check ⟨[], []⟩
    { argsOne with bin_factor := 1 / 2 }

theorem rebin_empty_eq (fs0 : FS) (a : RebinArgs) (f : ℕ)
    (hbf : a.bin_factor = (f : ℚ)) (hf : 2 ≤ f) (hempty : a.slices = []) :
    rebin fs0 a = ⟨[Event.mkdirEv (rebinOutDir a f)],
      fs0.mkdirExistOk (rebinOutDir a f),
      Except.error RebinErr.indexError⟩ := by
  obtain ⟨dp, dn, sl, bf, cr, nw, od, fp⟩ := a
  dsimp only at hbf hempty ⊢
  subst hbf
  subst hempty
  have h1 : ¬ ((f : ℚ) ≤ 1) := by
    push_neg
    exact_mod_cast (by omega : (1 : ℕ) < f)
  have h2 : ¬ (((f : ℚ)).den ≠ 1) := by simp
  rw [rebin, if_neg h1, if_neg h2]
  rfl

theorem rebin_mismatch_eq (fs0 : FS) (a : RebinArgs) (f : ℕ) (s0 : Slice)
    (rest : List Slice) (hbf : a.bin_factor = (f : ℚ)) (hf : 2 ≤ f)
    (hsl : a.slices = s0 :: rest)
    (hne : ((s0 :: rest).all fun s => sliceShape s = sliceShape s0)
      = false) :
    rebin fs0 a = ⟨[Event.mkdirEv (rebinOutDir a f)],
      fs0.mkdirExistOk (rebinOutDir a f),
      Except.error RebinErr.stackShapeError⟩ := by
  obtain ⟨dp, dn, sl, bf, cr, nw, od, fp⟩ := a
  dsimp only at hbf hsl ⊢
  subst hbf
  subst hsl
  have h1 : ¬ ((f : ℚ) ≤ 1) := by
    push_neg
    exact_mod_cast (by omega : (1 : ℕ) < f)
  have h2 : ¬ (((f : ℚ)).den ≠ 1) := by simp
  rw [rebin, if_neg h1, if_neg h2]
  dsimp only
  rw [if_neg (by simp [hne])]
  rfl

/-- Claim C10: with a valid `bin_factor` and an empty slice list, `rebin`
still creates the output directory (the `mkdir` precedes the first indexing
of the Jp2k list) and only then fails with the empty-list `IndexError`:
the failure is not atomic. -/
theorem C10_mkdir_precedes_empty_failure (fs0 : FS) (a : RebinArgs) (f : ℕ)
    (hbf : a.bin_factor = (f : ℚ)) (hf : 2 ≤ f) (hempty : a.slices = []) :
    (rebin fs0 a).result = Except.error RebinErr.indexError
    ∧ (rebin fs0 a).events = [Event.mkdirEv (rebinOutDir a f)]
    ∧ rebinOutDir a f ∈ (rebin fs0 a).fs.dirs := by
  rw [rebin_empty_eq fs0 a f hbf hf hempty]
  exact ⟨rfl, rfl, mem_mkdirExistOk_dirs _ _⟩

/-- Witness for C10: the empty-directory run with factor 2. -/
theorem C10_mkdir_precedes_empty_failure_witness :
    (rebin ⟨[], []⟩ argsEmptyW).result = Except.error RebinErr.indexError
    ∧ (rebin ⟨[], []⟩ argsEmptyW).events
        = [Event.mkdirEv (rebinOutDir argsEmptyW 2)]
    ∧ rebinOutDir argsEmptyW 2 ∈ (rebin ⟨[], []⟩ argsEmptyW).fs.dirs :=
  C10_mkdir_precedes_empty_failure ⟨[], []⟩ argsEmptyW 2 rfl (by omega) rfl

/-- Witness for C2: the slab of output index 1 in the three-slice run with
factor 2 (a final partial slab of depth 1). -/
theorem C2_slab_coverage_and_axial_divisor_witness :
    (slabSlices argsW.slices 2 1).length
        = min ((1 + 1) * 2) argsW.slices.length - 1 * 2
    ∧ (∀ k, k < (slabSlices argsW.slices 2 1).length →
        (slabSlices argsW.slices 2 1)[k]? = argsW.slices[1 * 2 + k]?)
    ∧ (argsW.slices.length % 2 ≠ 0 → 1 = ceilDiv argsW.slices.length 2 - 1 →
        (slabSlices argsW.slices 2 1).length = argsW.slices.length % 2)
    ∧ (∀ (s : Slice) (tl : List Slice) (i j : ℕ),
        i < s.data.length → j < (s.data.getD 0 []).length →
        getPix (axialMean (slabArray (s :: tl))) i j
          = ((s :: tl).map fun t => getPix t.data i j).sum
              / (((s :: tl).length : ℕ) : ℚ)) :=
  C2_slab_coverage_and_axial_divisor argsW.slices 2 1 (by decide) (by decide)

/-- Claim C7: output-directory targeting is idempotent and
frame-preserving: when no explicit output directory is supplied the target
is the sibling `<input_dir>_bin<factor>`; a pre-existing output directory
does not make the run fail and is not re-created; and no file outside the
run's own output paths is deleted or modified. -/
theorem C7_output_dir_idempotent_frame (fs0 : FS) (a : RebinArgs) (f : ℕ)
    (s0 : Slice) (rest : List Slice)
    (hbf : a.bin_factor = (f : ℚ)) (hf : 2 ≤ f)
    (hsl : a.slices = s0 :: rest)
    (hcons : ((s0 :: rest).all fun s => sliceShape s = sliceShape s0) = true)
    (hok : ∀ z ∈ List.range (ceilDiv a.slices.length f),
      jobOk a.slices f z = true) :
    (a.outDir = none →
      rebinOutDir a f
        = a.dirParent ++ "/" ++ a.dirName ++ "_bin" ++ String.mk (pyNatStr f))
    ∧ (rebin fs0 a).result = Except.ok (rebinOutDir a f)
    ∧ (rebinOutDir a f ∈ fs0.dirs → (rebin fs0 a).fs.dirs = fs0.dirs)
    ∧ ∀ p, p ∉ (List.range (ceilDiv a.slices.length f)).map
        (outPath (rebinOutDir a f) a.fnamePre) →
        (rebin fs0 a).fs.read p = fs0.read p := by
  have hrun := rebin_success_eq fs0 a f s0 rest hbf hf hsl hcons hok
  refine ⟨?_, by rw [hrun], ?_, ?_⟩
  · intro hnone
    simp [rebinOutDir, hnone]
  · intro hmem
    rw [hrun]
    show (applyJobs (fs0.mkdirExistOk (rebinOutDir a f)) _).dirs = fs0.dirs
    rw [applyJobs_dirs, mkdirExistOk_of_mem fs0 hmem]
  · intro p hp
    rw [hrun]
    show (applyJobs (fs0.mkdirExistOk (rebinOutDir a f)) _).read p
      = fs0.read p
    rw [applyJobs_read_not_mem _ _ (by simpa [jobsList, List.map_map]
      using hp)]
    simp [FS.read, mkdirExistOk_files]

/-- Witness for C7: the three-slice run against a filesystem that already
holds the output directory. -/
theorem C7_output_dir_idempotent_frame_witness :
    (argsW.outDir = none →
      rebinOutDir argsW 2
        = argsW.dirParent ++ "/" ++ argsW.dirName ++ "_bin"
            ++ String.mk (pyNatStr 2))
    ∧ (rebin ⟨["base/ims_bin2"], []⟩ argsW).result
        = Except.ok (rebinOutDir argsW 2)
    ∧ (rebinOutDir argsW 2 ∈ (⟨["base/ims_bin2"], []⟩ : FS).dirs →
        (rebin ⟨["base/ims_bin2"], []⟩ argsW).fs.dirs
          = (⟨["base/ims_bin2"], []⟩ : FS).dirs)
    ∧ ∀ p, p ∉ (List.range (ceilDiv argsW.slices.length 2)).map
        (outPath (rebinOutDir argsW 2) argsW.fnamePre) →
        (rebin ⟨["base/ims_bin2"], []⟩ argsW).fs.read p
          = (⟨["base/ims_bin2"], []⟩ : FS).read p :=
  C7_output_dir_idempotent_frame ⟨["base/ims_bin2"], []⟩ argsW 2 sliceA
    [sliceB, sliceC] rfl (by omega) rfl (by decide) (by decide)

/-- Claim C8: the run's outputs are independent of the worker count and of
the order in which the independent jobs execute: `num_workers` does not
enter any output-determining step, each output path's final content is the
job content determined solely by its slab, the factor, the dtype and the
compression ratio, and applying any reordering of the job set leaves every
output path with identical content. -/
theorem C8_deterministic_under_parallelism (fs0 : FS) (a : RebinArgs)
    (f : ℕ) (s0 : Slice) (rest : List Slice)
    (hbf : a.bin_factor = (f : ℚ)) (hf : 2 ≤ f)
    (hsl : a.slices = s0 :: rest)
    (hcons : ((s0 :: rest).all fun s => sliceShape s = sliceShape s0) = true)
    (hok : ∀ z ∈ List.range (ceilDiv a.slices.length f),
      jobOk a.slices f z = true) :
    (∀ w : ℕ, rebin fs0 { a with num_workers := w } = rebin fs0 a)
    ∧ (∀ z ∈ List.range (ceilDiv a.slices.length f),
        (rebin fs0 a).fs.read (outPath (rebinOutDir a f) a.fnamePre z)
          = some (jobContent a.slices f z s0.dtype a.cratio))
    ∧ ∀ js : List (String × FileContent),
        (js.map Prod.fst).Nodup →
        (∀ j, j ∈ js ↔ j ∈ jobsList a.slices f s0.dtype a.cratio
          (rebinOutDir a f) a.fnamePre
          (List.range (ceilDiv a.slices.length f))) →
        ∀ z ∈ List.range (ceilDiv a.slices.length f),
          (applyJobs (fs0.mkdirExistOk (rebinOutDir a f)) js).read
              (outPath (rebinOutDir a f) a.fnamePre z)
            = some (jobContent a.slices f z s0.dtype a.cratio) := by
  refine ⟨fun w => rfl, ?_, ?_⟩
  · intro z hz
    rw [rebin_success_eq fs0 a f s0 rest hbf hf hsl hcons hok]
    exact applyJobs_read_mem _ _
      (jobsList_keys_nodup a.slices f s0.dtype a.cratio (rebinOutDir a f)
        a.fnamePre (ceilDiv a.slices.length f))
      (mem_jobsList a.slices f s0.dtype a.cratio (rebinOutDir a f)
        a.fnamePre (List.mem_range.mp hz))
  · intro js hnd hiff z hz
    exact applyJobs_read_mem _ _ hnd ((hiff _).mpr
      (mem_jobsList a.slices f s0.dtype a.cratio (rebinOutDir a f)
        a.fnamePre (List.mem_range.mp hz)))

/-- Witness for C8: the three-slice run with factor 2. -/
theorem C8_deterministic_under_parallelism_witness :
    (∀ w : ℕ, rebin ⟨[], []⟩ { argsW with num_workers := w }
        = rebin ⟨[], []⟩ argsW)
    ∧ (∀ z ∈ List.range (ceilDiv argsW.slices.length 2),
        (rebin ⟨[], []⟩ argsW).fs.read
            (outPath (rebinOutDir argsW 2) argsW.fnamePre z)
          = some (jobContent argsW.slices 2 z sliceA.dtype argsW.cratio))
    ∧ ∀ js : List (String × FileContent),
        (js.map Prod.fst).Nodup →
        (∀ j, j ∈ js ↔ j ∈ jobsList argsW.slices 2 sliceA.dtype argsW.cratio
          (rebinOutDir argsW 2) argsW.fnamePre
          (List.range (ceilDiv argsW.slices.length 2))) →
        ∀ z ∈ List.range (ceilDiv argsW.slices.length 2),
          (applyJobs ((⟨[], []⟩ : FS).mkdirExistOk (rebinOutDir argsW 2))
              js).read (outPath (rebinOutDir argsW 2) argsW.fnamePre z)
            = some (jobContent argsW.slices 2 z sliceA.dtype argsW.cratio) :=
  C8_deterministic_under_parallelism ⟨[], []⟩ argsW 2 sliceA
    [sliceB, sliceC] rfl (by omega) rfl (by decide) (by decide)

/-- A 2×2 uint8 slice: same shape as `sliceA`, different dtype. -/
def sliceD8 : Slice := ⟨[[3, 3], [3, 3]], .uint8, true⟩

/-- A run whose two slices agree in shape but differ in dtype. -/
def argsMixed : RebinArgs :=
  { dirParent := "base", dirName := "ims", slices := [sliceA, sliceD8],
    bin_factor := 2, cratio := 10 }

/-- Counterexample to C6 as stated: a stack whose slices have inconsistent
dtypes (uint16 then uint8) is not rejected — the run completes successfully
using the first slice's dtype, instead of failing with an input error. -/
theorem C6_counterexample_mixed_dtypes_accepted :
    (rebin ⟨[], []⟩ argsMixed).result = Except.ok "base/ims_bin2"
    ∧ (rebin ⟨[], []⟩ argsMixed).fs.read (outPath "base/ims_bin2" "" 0)
        = some ⟨[[2]], Dtype.uint16, [10]⟩ := by
  with_unfolding_all decide

/-- Claim C6 (amended): an empty slice list fails at planning time with the
empty-list `IndexError` and a shape-inconsistent stack fails at the
stacking step, both only after the output directory is created; a stack
that is shape-consistent is accepted regardless of the slices' dtypes
(no dtype consistency check exists), and with readable slices the run
succeeds. -/
theorem C6_planning_failures (fs0 : FS) (a : RebinArgs) (f : ℕ)
    (hbf : a.bin_factor = (f : ℚ)) (hf : 2 ≤ f) :
    (a.slices = [] →
      (rebin fs0 a).result = Except.error RebinErr.indexError
      ∧ (rebin fs0 a).events = [Event.mkdirEv (rebinOutDir a f)])
    ∧ (∀ s0 rest, a.slices = s0 :: rest →
        ((s0 :: rest).all fun s => sliceShape s = sliceShape s0) = false →
        (rebin fs0 a).result = Except.error RebinErr.stackShapeError
        ∧ (rebin fs0 a).events = [Event.mkdirEv (rebinOutDir a f)])
    ∧ (∀ s0 rest, a.slices = s0 :: rest →
        ((s0 :: rest).all fun s => sliceShape s = sliceShape s0) = true →
        (∀ z ∈ List.range (ceilDiv a.slices.length f),
          jobOk a.slices f z = true) →
        (rebin fs0 a).result = Except.ok (rebinOutDir a f)) := by
  refine ⟨?_, ?_, ?_⟩
  · intro hempty
    rw [rebin_empty_eq fs0 a f hbf hf hempty]
    exact ⟨rfl, rfl⟩
  · intro s0 rest hsl hne
    rw [rebin_mismatch_eq fs0 a f s0 rest hbf hf hsl hne]
    exact ⟨rfl, rfl⟩
  · intro s0 rest hsl hcons hok
    rw [rebin_success_eq fs0 a f s0 rest hbf hf hsl hcons hok]

/-- Witness for C6 (amended) at the three-slice run with factor 2. -/
theorem C6_planning_failures_witness :
    (argsW.slices = [] →
      (rebin ⟨[], []⟩ argsW).result = Except.error RebinErr.indexError
      ∧ (rebin ⟨[], []⟩ argsW).events
          = [Event.mkdirEv (rebinOutDir argsW 2)])
    ∧ (∀ s0 rest, argsW.slices = s0 :: rest →
        ((s0 :: rest).all fun s => sliceShape s = sliceShape s0) = false →
        (rebin ⟨[], []⟩ argsW).result = Except.error RebinErr.stackShapeError
        ∧ (rebin ⟨[], []⟩ argsW).events
            = [Event.mkdirEv (rebinOutDir argsW 2)])
    ∧ (∀ s0 rest, argsW.slices = s0 :: rest →
        ((s0 :: rest).all fun s => sliceShape s = sliceShape s0) = true →
        (∀ z ∈ List.range (ceilDiv argsW.slices.length 2),
          jobOk argsW.slices 2 z = true) →
        (rebin ⟨[], []⟩ argsW).result = Except.ok (rebinOutDir argsW 2)) :=
  C6_planning_failures ⟨[], []⟩ argsW 2 rfl (by omega)

/-- A corrupt first slice followed by two readable slices. -/
def sliceBad : Slice := ⟨[[7, 7], [7, 7]], .uint16, false⟩

/-- A run whose first slice is corrupt: job 0 (slices 0–1) fails while
job 1 (slice 2 alone) is independent of the corruption. -/
def argsC5 : RebinArgs :=
  { dirParent := "base", dirName := "ims",
    slices := [sliceBad, sliceB, sliceC], bin_factor := 2, cratio := 10 }

/-- Counterexample to C5 as stated: with the first slice corrupt, the run
raises the single job-0 exception — no run-level aggregate of failed
indices is produced — and the independent job 1 (whose slab holds only the
readable slice 2) is never completed: its output path is absent. -/
theorem C5_counterexample_no_aggregation :
    (rebin ⟨[], []⟩ argsC5).result
        = Except.error (RebinErr.slabReadError 0)
    ∧ (rebin ⟨[], []⟩ argsC5).events = [Event.mkdirEv "base/ims_bin2"]
    ∧ (rebin ⟨[], []⟩ argsC5).fs.read (outPath "base/ims_bin2" "" 1)
        = none := by
  with_unfolding_all decide

/-- Claim C5 (amended): a failing slab job is not caught at the job
boundary: the run stops at the first failing output index `z0`, re-raising
its `SlabReadError`; exactly the jobs before `z0` have been written, and
jobs after `z0` — independent or not — are skipped, with no aggregate
failure report. -/
theorem C5_first_failure_aborts_run (fs0 : FS) (a : RebinArgs) (f : ℕ)
    (s0 : Slice) (rest : List Slice) (z0 : ℕ)
    (hbf : a.bin_factor = (f : ℚ)) (hf : 2 ≤ f)
    (hsl : a.slices = s0 :: rest)
    (hcons : ((s0 :: rest).all fun s => sliceShape s = sliceShape s0) = true)
    (hz0 : z0 < ceilDiv a.slices.length f)
    (hgood : ∀ z < z0, jobOk a.slices f z = true)
    (hbad : jobOk a.slices f z0 = false) :
    (rebin fs0 a).result = Except.error (RebinErr.slabReadError z0)
    ∧ (rebin fs0 a).events
        = Event.mkdirEv (rebinOutDir a f) ::
            ((List.range z0).map fun z =>
              Event.writeEv (outPath (rebinOutDir a f) a.fnamePre z)
                (jobContent a.slices f z s0.dtype a.cratio)) := by
  have hsplit : List.range (ceilDiv a.slices.length f)
      = List.range z0
        ++ z0 :: List.range' (z0 + 1) (ceilDiv a.slices.length f - z0 - 1)
      := by
    rw [range_split z0 _ (le_of_lt hz0)]
    congr 1
    have he : ceilDiv a.slices.length f - z0
        = (ceilDiv a.slices.length f - z0 - 1) + 1 := by omega
    rw [he, List.range'_succ]
    simp
  rw [rebin_eq_runJobs fs0 a f s0 rest hbf hf hsl hcons, hsplit,
    runJobs_fail _ _ _ _ _ _ _ _ _ _ _
      (fun z hz => hgood z (List.mem_range.mp hz)) hbad]
  exact ⟨rfl, rfl⟩

/-- Witness for C5 (amended): the corrupt-first-slice run, failing at
output index 0 with no writes performed. -/
theorem C5_first_failure_aborts_run_witness :
    (rebin ⟨[], []⟩ argsC5).result
        = Except.error (RebinErr.slabReadError 0)
    ∧ (rebin ⟨[], []⟩ argsC5).events
        = Event.mkdirEv (rebinOutDir argsC5 2) ::
            ((List.range 0).map fun z =>
              Event.writeEv (outPath (rebinOutDir argsC5 2) argsC5.fnamePre z)
                (jobContent argsC5.slices 2 z sliceBad.dtype argsC5.cratio)) :=
  C5_first_failure_aborts_run ⟨[], []⟩ argsC5 2 sliceBad [sliceB, sliceC] 0
    rfl (by omega) rfl (by decide) (by decide)
    (fun z hz => absurd hz (Nat.not_lt_zero z)) (by decide)

end Rebin
